import Mathlib

/-!
Verification of the data-access layer of `src/codes/orm_framework.py`:
a bounded connection pool, a TTL + capacity query cache, a fluent query
builder, a `Database` facade and an active-record `Model` layer.

The Python classes are shallowly embedded as Lean structures and pure
functions.  Python `dict`s (which preserve insertion order) are modelled
as association lists; `datetime` timestamps are modelled as whole seconds
(`Nat`), so `timedelta.seconds` — the seconds *component*, not the total —
becomes `(now - ts) % 86400`.  Statements sent to the backing SQLite store
are recorded in a ghost `trace`; the pool carries a ghost `acquired`
counter so that "no connection was acquired" is observable.  A `Bool`
parameter `ok` models whether `cursor.execute` raises, and `Except` models
exception propagation through `try/finally`.
-/

set_option linter.unusedVariables false

/-- Python runtime values that flow through the ORM (SQL parameters,
attribute values).  `truthy` mirrors Python truthiness. -/
inductive Val where
  | vnone
  | vint (n : Int)
  | vstr (s : String)
deriving DecidableEq, Repr

def Val.truthy : Val → Bool
  | .vnone => false
  | .vint n => n != 0
  | .vstr s => s != ""

/-- A row materialized as `dict(row)`: ordered field-to-value mapping. -/
abbrev Row := List (String × Val)

/-- Python `s.startswith` with an underscore argument: the first character is an underscore
(code point 95). -/
def startsWithUnderscore (s : String) : Bool :=
  match s.data with
  | [] => false
  | c :: _ => c == Char.ofNat 95

/-- Python `sep.join(parts)`. -/
def joinSep (sep : String) : List String → String
  | [] => ""
  | [x] => x
  | x :: y :: rest => x ++ sep ++ joinSep sep (y :: rest)

/-- Number of positional placeholders in a SQL fragment. -/
def countQ (s : String) : Nat := s.data.count (Char.ofNat 63)

-- ==================== Query Builder ====================

/-- State of `QueryBuilder` (`orm_framework.py` lines 61-99). -/
structure QueryBuilder where
  table : String
  select_fields : List String
  where_clauses : List String
  where_values : List Val
  joins : List String
  order_by_clause : Option String
  limit_value : Option Int
  offset_value : Option Int
deriving DecidableEq, Repr

def QueryBuilder.new (table : String) : QueryBuilder :=
  ⟨table, ["*"], [], [], [], none, none, none⟩

def QueryBuilder.select (qb : QueryBuilder) (fields : List String) : QueryBuilder :=
  { qb with select_fields := fields }

def QueryBuilder.whereC (qb : QueryBuilder) (condition : String) (values : List Val) :
    QueryBuilder :=
  { qb with where_clauses := qb.where_clauses ++ [condition],
            where_values := qb.where_values ++ values }

def QueryBuilder.join (qb : QueryBuilder) (other_table on_clause : String) : QueryBuilder :=
  { qb with joins := qb.joins ++ ["JOIN " ++ other_table ++ " ON " ++ on_clause] }

def QueryBuilder.left_join (qb : QueryBuilder) (other_table on_clause : String) : QueryBuilder :=
  { qb with joins := qb.joins ++ ["LEFT JOIN " ++ other_table ++ " ON " ++ on_clause] }

def QueryBuilder.order_by (qb : QueryBuilder) (field direction : String) : QueryBuilder :=
  { qb with order_by_clause := some ("ORDER BY " ++ field ++ " " ++ direction) }

def QueryBuilder.limit (qb : QueryBuilder) (n : Int) : QueryBuilder :=
  { qb with limit_value := some n }

def QueryBuilder.offset (qb : QueryBuilder) (n : Int) : QueryBuilder :=
  { qb with offset_value := some n }

/-- Line 102: the initial `SELECT <fields> FROM <table>` text. -/
def buildSelect (qb : QueryBuilder) : String :=
  "SELECT " ++ joinSep ", " qb.select_fields ++ " FROM " ++ qb.table

/-- Lines 104-105: `if self.joins: sql += ...` (list truthiness). -/
def addJoins (qb : QueryBuilder) (sql : String) : String :=
  if qb.joins.isEmpty then sql else sql ++ " " ++ joinSep " " qb.joins

/-- Lines 107-108: `if self.where_clauses: sql += " WHERE " + ...`. -/
def addWhere (qb : QueryBuilder) (sql : String) : String :=
  if qb.where_clauses.isEmpty then sql
  else sql ++ " WHERE " ++ joinSep " AND " qb.where_clauses

/-- Lines 110-111: `if self.order_by_clause:` — `None` and the empty
string are both falsy. -/
def addOrder (qb : QueryBuilder) (sql : String) : String :=
  match qb.order_by_clause with
  | none => sql
  | some ob => if ob = "" then sql else sql ++ " " ++ ob

/-- Lines 113-114: `if self.limit_value:` — `None` and `0` are both
falsy, so `LIMIT 0` is silently dropped. -/
def addLimit (qb : QueryBuilder) (sql : String) : String :=
  match qb.limit_value with
  | none => sql
  | some n => if n = 0 then sql else sql ++ " LIMIT " ++ toString n

/-- Lines 116-117: `if self.offset_value:` — same falsy test. -/
def addOffset (qb : QueryBuilder) (sql : String) : String :=
  match qb.offset_value with
  | none => sql
  | some n => if n = 0 then sql else sql ++ " OFFSET " ++ toString n

/-- Source `QueryBuilder.build` (lines 101-119): the successive `sql +=` steps,
then the bound values as a tuple. -/
def QueryBuilder.build (qb : QueryBuilder) : String × List Val :=
  (addOffset qb (addLimit qb (addOrder qb (addWhere qb (addJoins qb (buildSelect qb))))),
   qb.where_values)

/-- One fluent call on a `QueryBuilder`, for quantifying over call
sequences. -/
inductive QBOp where
  | select (fields : List String)
  | whereC (condition : String) (values : List Val)
  | join (other_table on_clause : String)
  | left_join (other_table on_clause : String)
  | order_by (field direction : String)
  | limit (n : Int)
  | offset (n : Int)
deriving DecidableEq, Repr

def QBOp.apply (qb : QueryBuilder) : QBOp → QueryBuilder
  | .select fields => qb.select fields
  | .whereC c vs => qb.whereC c vs
  | .join t o => qb.join t o
  | .left_join t o => qb.left_join t o
  | .order_by f d => qb.order_by f d
  | .limit n => qb.limit n
  | .offset n => qb.offset n

def applyOps (qb : QueryBuilder) (ops : List QBOp) : QueryBuilder :=
  ops.foldl QBOp.apply qb

/-- The bound values contributed by one fluent call. -/
def QBOp.whereVals : QBOp → List Val
  | .whereC _ vs => vs
  | _ => []

/-- The predicate fragments contributed by one fluent call. -/
def QBOp.whereConds : QBOp → List String
  | .whereC c _ => [c]
  | _ => []

/-- Cleanliness of a builder state: placeholders occur only in the
predicate fragments, and the fragments carry exactly as many
placeholders as there are bound values. -/
def BuilderClean (qb : QueryBuilder) : Prop :=
  countQ qb.table = 0 ∧
  (∀ f ∈ qb.select_fields, countQ f = 0) ∧
  (∀ j ∈ qb.joins, countQ j = 0) ∧
  (∀ ob, qb.order_by_clause = some ob → countQ ob = 0) ∧
  (∀ n, qb.limit_value = some n → countQ (toString n) = 0) ∧
  (∀ n, qb.offset_value = some n → countQ (toString n) = 0) ∧
  (qb.where_clauses.map countQ).sum = qb.where_values.length

/-- Cleanliness of one fluent call: the `where` fragment has exactly one
placeholder per bound value, and no other argument contains `?`. -/
def QBOp.clean : QBOp → Prop
  | .select fields => ∀ f ∈ fields, countQ f = 0
  | .whereC c vs => countQ c = vs.length
  | .join t o => countQ t = 0 ∧ countQ o = 0
  | .left_join t o => countQ t = 0 ∧ countQ o = 0
  | .order_by f d => countQ f = 0 ∧ countQ d = 0
  | .limit n => countQ (toString n) = 0
  | .offset n => countQ (toString n) = 0

instance (op : QBOp) : Decidable op.clean :=
  match op with
  | .select fields => inferInstanceAs (Decidable (∀ f ∈ fields, countQ f = 0))
  | .whereC c vs => inferInstanceAs (Decidable (countQ c = vs.length))
  | .join t o => inferInstanceAs (Decidable (countQ t = 0 ∧ countQ o = 0))
  | .left_join t o => inferInstanceAs (Decidable (countQ t = 0 ∧ countQ o = 0))
  | .order_by f d => inferInstanceAs (Decidable (countQ f = 0 ∧ countQ d = 0))
  | .limit n => inferInstanceAs (Decidable (countQ (toString n) = 0))
  | .offset n => inferInstanceAs (Decidable (countQ (toString n) = 0))

-- ==================== Query Cache ====================

/-- State of `QueryCache` (lines 122-152).  The two parallel dicts
`cache` and `timestamps` always hold the same keys in the same insertion
order, so they are modelled as one association list
`(key, value, insertedAt)`; Python dicts preserve insertion order and
update existing keys in place. -/
structure QueryCache (V : Type) where
  entries : List (String × V × Nat)
  max_size : Nat
  ttl : Nat
deriving DecidableEq, Repr

def lookupKey {V : Type} (k : String) : List (String × V × Nat) → Option (V × Nat)
  | [] => none
  | (k1, v, ts) :: rest => if k1 = k then some (v, ts) else lookupKey k rest

/-- Python `del d[k]` on both parallel dicts. -/
def eraseKey {V : Type} (k : String) (l : List (String × V × Nat)) :
    List (String × V × Nat) :=
  l.filter (fun e => e.1 ≠ k)

/-- Python `d[k] = v` on both parallel dicts: update in place if the key exists,
else append (Python dict insertion order). -/
def setEntry {V : Type} (k : String) (v : V) (ts : Nat) :
    List (String × V × Nat) → List (String × V × Nat)
  | [] => [(k, v, ts)]
  | (k1, v1, ts1) :: rest =>
      if k1 = k then (k, v, ts) :: rest else (k1, v1, ts1) :: setEntry k v ts rest

/-- Python `min(self.timestamps, key=self.timestamps.get)`: the first entry (in
insertion order) with the minimal timestamp.  Python `min` keeps the
earlier element on ties. -/
def minByTs {V : Type} (e : String × V × Nat) (l : List (String × V × Nat)) :
    String × V × Nat :=
  l.foldl (fun best x => if x.2.2 < best.2.2 then x else best) e

def oldestEntry {V : Type} : List (String × V × Nat) → Option (String × V × Nat)
  | [] => none
  | e :: rest => some (minByTs e rest)

/-- Source `QueryCache.get` (lines 129-138).  `timedelta.seconds` is the seconds
component of the age, i.e. `(now - ts) % 86400` for whole-second times. -/
def QueryCache.get {V : Type} (c : QueryCache V) (now : Nat) (k : String) :
    Option V × QueryCache V :=
  match lookupKey k c.entries with
  | none => (none, c)
  | some (v, ts) =>
      if (now - ts) % 86400 > c.ttl then
        (none, { c with entries := eraseKey k c.entries })
      else
        (some v, c)

/-- Source `QueryCache.set` (lines 140-148).  The returned `Bool` is `false`
exactly when Python would raise (`min` over an empty dict, possible only
when `max_size = 0` and the cache is empty); in that case the state is
unchanged, as the exception fires before any mutation. -/
def QueryCache.set {V : Type} (c : QueryCache V) (now : Nat) (k : String) (v : V) :
    Bool × QueryCache V :=
  if c.entries.length ≥ c.max_size then
    match oldestEntry c.entries with
    | none => (false, c)
    | some old =>
        (true, { c with entries := setEntry k v now (eraseKey old.1 c.entries) })
  else
    (true, { c with entries := setEntry k v now c.entries })

/-- Source `QueryCache.clear` (lines 150-152). -/
def QueryCache.clearAll {V : Type} (c : QueryCache V) : QueryCache V :=
  { c with entries := [] }

-- ==================== Connection Pool ====================

/-- State of `ConnectionPool` (lines 32-58).  Connections are identified
by numbers; `connections` is the idle list, `next_id` generates fresh
connections, `closed` records closed ones.  `acquired` is a ghost counter
of `get_connection` calls, making "no connection was acquired"
observable. -/
structure ConnectionPool where
  database : String
  pool_size : Nat
  connections : List Nat
  next_id : Nat
  closed : List Nat
  acquired : Nat
deriving DecidableEq, Repr

/-- Source `__init__` and `_initialize_pool` (lines 33-43): open `pool_size`
connections up front. -/
def ConnectionPool.init (database : String) (pool_size : Nat) : ConnectionPool :=
  { database := database, pool_size := pool_size, connections := List.range pool_size,
    next_id := pool_size, closed := [], acquired := 0 }

/-- Source `get_connection` (lines 45-48): `list.pop()` removes the last idle
connection; an empty pool opens a fresh (overflow) connection. -/
def ConnectionPool.get_connection (p : ConnectionPool) : Nat × ConnectionPool :=
  match p.connections.getLast? with
  | some c =>
      (c, { p with connections := p.connections.dropLast, acquired := p.acquired + 1 })
  | none =>
      (p.next_id, { p with next_id := p.next_id + 1, acquired := p.acquired + 1 })

/-- Source `return_connection` (lines 50-54). -/
def ConnectionPool.return_connection (p : ConnectionPool) (c : Nat) : ConnectionPool :=
  if p.connections.length < p.pool_size then
    { p with connections := p.connections ++ [c] }
  else
    { p with closed := p.closed ++ [c] }

/-- Source `close_all` (lines 56-58): closes every idle connection (the list
itself is not emptied by the Python code). -/
def ConnectionPool.close_all (p : ConnectionPool) : ConnectionPool :=
  { p with closed := p.closed ++ p.connections }

/-- One pool-facing step by some client: an acquire, or a release of an
arbitrary connection. -/
inductive PoolOp where
  | acquire
  | release (c : Nat)
deriving DecidableEq, Repr

def poolStep (p : ConnectionPool) : PoolOp → ConnectionPool
  | .acquire => (p.get_connection).2
  | .release c => p.return_connection c

def applyPoolOps (p : ConnectionPool) (ops : List PoolOp) : ConnectionPool :=
  ops.foldl poolStep p

-- ==================== Database ====================

/-- A value stored in the query cache: `fetch_one` caches a single row
dict, `fetch_all` caches a list of row dicts.  Truthiness is dict/list
non-emptiness. -/
inductive CVal where
  | one (r : Row)
  | many (rs : List Row)
deriving DecidableEq, Repr

def CVal.truthy : CVal → Bool
  | .one r => !r.isEmpty
  | .many rs => !rs.isEmpty

def cvalOptTruthy : Option CVal → Bool
  | none => false
  | some cv => cv.truthy

/-- Python `repr` of a parameter value, as used by `str(tuple)`. -/
def reprVal : Val → String
  | Val.vnone => "None"
  | Val.vint n => toString n
  | Val.vstr s => "\x27" ++ s ++ "\x27"

/-- Python `str` of a parameter tuple: `()`, `(v,)` or `(a, b, ...)`. -/
def reprParams : List Val → String
  | [] => "()"
  | [v] => "(" ++ reprVal v ++ ",)"
  | v :: w :: rest => "(" ++ joinSep ", " ((v :: w :: rest).map reprVal) ++ ")"

/-- The cache key `f"{sql}:{params}"` (lines 172, 190). -/
def cacheKey (sql : String) (params : List Val) : String :=
  sql ++ ":" ++ reprParams params

/-- State of `Database` (lines 155-159): one pool, one cache.  `trace` is
the ghost list of statements actually executed on the backing store. -/
structure Database where
  pool : ConnectionPool
  cache : QueryCache CVal
  trace : List (String × List Val)
deriving DecidableEq, Repr

/-- Source `Database.__init__` (lines 156-159): pool of 5, cache with
`max_size = 1000`, `ttl = 3600`. -/
def Database.init (database : String) : Database :=
  { pool := ConnectionPool.init database 5,
    cache := { entries := [], max_size := 1000, ttl := 3600 },
    trace := [] }

/-- Source `Database.execute` (lines 161-169).  `ok` says whether
`cursor.execute` succeeds; the `finally` block releases the connection on
both paths.  The cache is not touched. -/
def Database.execute (db : Database) (sql : String) (params : List Val) (ok : Bool) :
    Except Unit Unit × Database :=
  let acq := db.pool.get_connection
  let pool2 := acq.2.return_connection acq.1
  if ok then
    (Except.ok (), { db with pool := pool2, trace := db.trace ++ [(sql, params)] })
  else
    (Except.error (), { db with pool := pool2 })

/-- Source `Database.fetch_one` (lines 171-187).  `store` is the backing
response of the store to a query; `dict(row) if row else None` makes the
result `none` unless the first row is a non-empty mapping; the result is
cached only if truthy.  A failing `cursor.execute` (`ok = false`) leaves
cache and trace unchanged but still releases the connection; a failing
`cache.set` propagates after the statement ran. -/
def Database.fetch_one (db : Database) (store : String → List Val → List Row)
    (now : Nat) (sql : String) (params : List Val) (ok : Bool) :
    Except Unit (Option CVal) × Database :=
  let key := cacheKey sql params
  let g := db.cache.get now key
  if cvalOptTruthy g.1 then
    (Except.ok g.1, { db with cache := g.2 })
  else
    let acq := db.pool.get_connection
    let pool2 := acq.2.return_connection acq.1
    if ok then
      let result : Option Row :=
        match (store sql params).head? with
        | some r => if r.isEmpty then none else some r
        | none => none
      let s :=
        match result with
        | some r => g.2.set now key (CVal.one r)
        | none => (true, g.2)
      if s.1 then
        (Except.ok (result.map CVal.one),
         { pool := pool2, cache := s.2, trace := db.trace ++ [(sql, params)] })
      else
        (Except.error (),
         { pool := pool2, cache := s.2, trace := db.trace ++ [(sql, params)] })
    else
      (Except.error (), { db with pool := pool2, cache := g.2 })

/-- The miss path of `Database.fetch_all` (lines 195-205): run the query,
cache the row list only when non-empty, release the connection in
`finally`.  `cache1` is the cache state after the initial `get`. -/
def Database.fetch_all_miss (db : Database) (store : String → List Val → List Row)
    (now : Nat) (sql : String) (params : List Val) (ok : Bool)
    (cache1 : QueryCache CVal) : Except Unit CVal × Database :=
  let key := cacheKey sql params
  let acq := db.pool.get_connection
  let pool2 := acq.2.return_connection acq.1
  if ok then
    let results := store sql params
    let s :=
      if results.isEmpty then (true, cache1)
      else cache1.set now key (CVal.many results)
    if s.1 then
      (Except.ok (CVal.many results),
       { pool := pool2, cache := s.2, trace := db.trace ++ [(sql, params)] })
    else
      (Except.error (),
       { pool := pool2, cache := s.2, trace := db.trace ++ [(sql, params)] })
  else
    (Except.error (), { db with pool := pool2, cache := cache1 })

/-- Source `Database.fetch_all` (lines 189-205): return a truthy cached value
as-is, otherwise take the miss path. -/
def Database.fetch_all (db : Database) (store : String → List Val → List Row)
    (now : Nat) (sql : String) (params : List Val) (ok : Bool) :
    Except Unit CVal × Database :=
  let key := cacheKey sql params
  let g := db.cache.get now key
  match g.1 with
  | some cv =>
      if cv.truthy then
        (Except.ok cv, { db with cache := g.2 })
      else
        Database.fetch_all_miss db store now sql params ok g.2
  | none => Database.fetch_all_miss db store now sql params ok g.2

-- ==================== Model ====================

/-- A `Model` instance (lines 235-241): its table name and its
`__dict__`, an insertion-ordered mapping of attribute names to values. -/
structure Model where
  tablename : String
  attrs : List (String × Val)
deriving DecidableEq, Repr

def lookupAttr (k : String) : List (String × Val) → Option Val
  | [] => none
  | (k1, v) :: rest => if k1 = k then some v else lookupAttr k rest

/-- The SQL statement and bound values produced by `Model.save`
(lines 287-303).  `attrs` filters out names starting with an underscore;
the dispatch is `hasattr(self, id) and self.id` — attribute presence
plus Python truthiness. -/
def Model.saveStmt (m : Model) : String × List Val :=
  let attrs := m.attrs.filter (fun e => ! startsWithUnderscore e.1)
  let insertStmt : String × List Val :=
    ("INSERT INTO " ++ m.tablename ++ " (" ++ joinSep ", " (attrs.map Prod.fst) ++
       ") VALUES (" ++ joinSep ", " (attrs.map (fun _ => "?")) ++ ")",
     attrs.map Prod.snd)
  match lookupAttr "id" m.attrs with
  | some idv =>
      if idv.truthy then
        let nonId := attrs.filter (fun e => e.1 ≠ "id")
        ("UPDATE " ++ m.tablename ++ " SET " ++
           joinSep ", " (nonId.map (fun e => e.1 ++ " = ?")) ++ " WHERE id = ?",
         nonId.map Prod.snd ++ [idv])
      else insertStmt
  | none => insertStmt

/-- Source `Model.save` (lines 287-307): build the statement, execute it, then
clear the cache unconditionally and report `True`.  If `execute` raises,
the exception propagates before the clear. -/
def Model.save (db : Database) (m : Model) (ok : Bool) : Except Unit Bool × Database :=
  let st := m.saveStmt
  let r := Database.execute db st.1 st.2 ok
  match r.1 with
  | Except.error _ => (Except.error (), r.2)
  | Except.ok _ => (Except.ok true, { r.2 with cache := r.2.cache.clearAll })

/-- Source `Model.delete` (lines 309-316): `hasattr(self, id)` is a pure
presence test (no truthiness); without the attribute it returns `False`
touching nothing, otherwise it executes the parametrized `DELETE`,
clears the cache and returns `True`. -/
def Model.delete (db : Database) (m : Model) (ok : Bool) : Except Unit Bool × Database :=
  match lookupAttr "id" m.attrs with
  | none => (Except.ok false, db)
  | some idv =>
      let r := Database.execute db
        ("DELETE FROM " ++ m.tablename ++ " WHERE id = ?") [idv] ok
      match r.1 with
      | Except.error _ => (Except.error (), r.2)
      | Except.ok _ => (Except.ok true, { r.2 with cache := r.2.cache.clearAll })

-- ==================== Concrete states for counterexamples and witnesses ====================

/-- A database whose cache holds one entry, to observe the effect of
`execute` on a non-empty cache. -/
def c1db : Database :=
  { pool := ConnectionPool.init "deepcode.db" 5,
    cache := { entries := [(cacheKey "SELECT * FROM users" [], CVal.many [[("id", Val.vint 1)]], 0)],
               max_size := 1000, ttl := 3600 },
    trace := [] }

/-- A cache with one entry inserted at time 0 and the default ttl. -/
def c4cache : QueryCache Nat :=
  { entries := [("k", 7, 0)], max_size := 1000, ttl := 3600 }

/-- A full cache whose oldest timestamp 3 is shared by the entries for
`"b"` and `"c"`; `"b"` was inserted first. -/
def c5cache : QueryCache Nat :=
  { entries := [("a", 1, 5), ("b", 2, 3), ("c", 3, 3)], max_size := 3, ttl := 100 }

/-- An instance with a falsy primary key (`id = 0`) plus a name. -/
def c6model0 : Model :=
  { tablename := "users", attrs := [("id", Val.vint 0), ("name", Val.vstr "A")] }

/-- A persisted instance (`id = 7`). -/
def c6model7 : Model :=
  { tablename := "users", attrs := [("id", Val.vint 7), ("name", Val.vstr "A")] }

/-- An instance with no `id` attribute at all. -/
def c9model : Model :=
  { tablename := "users", attrs := [("name", Val.vstr "A")] }

/-- A backing store that answers every query with one single-column row. -/
def c8store : String → List Val → List Row :=
  fun _ _ => [[("id", Val.vint 1)]]

/-- A database with an empty cache (every read misses). -/
def c8db : Database := Database.init "deepcode.db"

/-- A database whose cache already holds the rows for query `"q"`. -/
def c8dbHit : Database :=
  { pool := ConnectionPool.init "deepcode.db" 5,
    cache := { entries := [(cacheKey "q" [], CVal.many [[("a", Val.vint 2)]], 0)],
               max_size := 1000, ttl := 3600 },
    trace := [] }

-- ==================== Helper lemmas: cache ====================

theorem lookupKey_mem {V : Type} {k : String} {l : List (String × V × Nat)}
    {v : V} {ts : Nat} (h : lookupKey k l = some (v, ts)) : (k, v, ts) ∈ l := by
  induction l with
  | nil => simp [lookupKey] at h
  | cons e rest ih =>
    obtain ⟨k1, v1, ts1⟩ := e
    by_cases hk : k1 = k
    · subst hk
      simp [lookupKey] at h
      simp [h.1, h.2]
    · simp [lookupKey, hk] at h
      exact List.mem_cons_of_mem _ (ih h)

theorem lookupKey_eraseKey_self {V : Type} (k : String) (l : List (String × V × Nat)) :
    lookupKey k (eraseKey k l) = none := by
  induction l with
  | nil => rfl
  | cons e rest ih =>
    obtain ⟨k1, v1, ts1⟩ := e
    by_cases hk : k1 = k
    · simpa [eraseKey, hk] using ih
    · simpa [eraseKey, lookupKey, hk] using ih

theorem setEntry_length_le {V : Type} (k : String) (v : V) (ts : Nat)
    (l : List (String × V × Nat)) : (setEntry k v ts l).length ≤ l.length + 1 := by
  induction l with
  | nil => simp [setEntry]
  | cons e rest ih =>
    obtain ⟨k1, v1, ts1⟩ := e
    by_cases hk : k1 = k
    · simp [setEntry, hk]
    · simp only [setEntry, hk, if_false, List.length_cons]
      omega

theorem lookupKey_setEntry_self {V : Type} (k : String) (v : V) (ts : Nat)
    (l : List (String × V × Nat)) : lookupKey k (setEntry k v ts l) = some (v, ts) := by
  induction l with
  | nil => simp [setEntry, lookupKey]
  | cons e rest ih =>
    obtain ⟨k1, v1, ts1⟩ := e
    by_cases hk : k1 = k
    · simp [setEntry, hk, lookupKey]
    · simpa [setEntry, hk, lookupKey] using ih

theorem eraseKey_cons_self {V : Type} {k k1 : String} (v1 : V) (ts1 : Nat)
    (rest : List (String × V × Nat)) (hk : k1 = k) :
    eraseKey k ((k1, v1, ts1) :: rest) = eraseKey k rest := by
  simp [eraseKey, List.filter_cons, hk]

theorem eraseKey_cons_ne {V : Type} {k k1 : String} (v1 : V) (ts1 : Nat)
    (rest : List (String × V × Nat)) (hk : ¬ k1 = k) :
    eraseKey k ((k1, v1, ts1) :: rest) = (k1, v1, ts1) :: eraseKey k rest := by
  simp [eraseKey, List.filter_cons, hk]

theorem eraseKey_not_mem {V : Type} {k : String} {l : List (String × V × Nat)}
    (h : k ∉ l.map Prod.fst) : eraseKey k l = l := by
  apply List.filter_eq_self.mpr
  intro a ha
  simp only [ne_eq, decide_eq_true_eq]
  intro hak
  exact h (hak ▸ List.mem_map_of_mem Prod.fst ha)

theorem eraseKey_length_lt {V : Type} {k : String} {v : V} {ts : Nat}
    {l : List (String × V × Nat)} (h : (k, v, ts) ∈ l) :
    (eraseKey k l).length < l.length := by
  induction l with
  | nil => simp at h
  | cons e rest ih =>
    obtain ⟨k1, v1, ts1⟩ := e
    by_cases hk : k1 = k
    · have hle := List.length_filter_le (fun e => decide (e.1 ≠ k)) rest
      rw [eraseKey_cons_self v1 ts1 rest hk]
      simp only [List.length_cons]
      exact Nat.lt_succ_of_le hle
    · rcases List.mem_cons.mp h with heq | hmem
      · injection heq with h1 h2
        exact absurd h1.symm hk
      · have hlt := ih hmem
        rw [eraseKey_cons_ne v1 ts1 rest hk]
        simp only [List.length_cons]
        omega

theorem eraseKey_length_nodup {V : Type} {k : String} {v : V} {ts : Nat}
    {l : List (String × V × Nat)} (hnd : (l.map Prod.fst).Nodup)
    (h : (k, v, ts) ∈ l) : (eraseKey k l).length + 1 = l.length := by
  induction l with
  | nil => simp at h
  | cons e rest ih =>
    obtain ⟨k1, v1, ts1⟩ := e
    simp only [List.map_cons, List.nodup_cons] at hnd
    by_cases hk : k1 = k
    · rw [eraseKey_cons_self v1 ts1 rest hk]
      rw [eraseKey_not_mem (hk ▸ hnd.1)]
      simp
    · rcases List.mem_cons.mp h with heq | hmem
      · injection heq with h1 h2
        exact absurd h1.symm hk
      · have := ih hnd.2 hmem
        rw [eraseKey_cons_ne v1 ts1 rest hk]
        simp only [List.length_cons]
        omega

theorem minByTs_decomp {V : Type} (e : String × V × Nat) (l : List (String × V × Nat)) :
    ∃ l1 l2, e :: l = l1 ++ minByTs e l :: l2 ∧
      (∀ x ∈ e :: l, (minByTs e l).2.2 ≤ x.2.2) ∧
      (∀ x ∈ l1, (minByTs e l).2.2 < x.2.2) := by
  induction l generalizing e with
  | nil =>
    refine ⟨[], [], rfl, ?_, by simp⟩
    intro x hx
    have hxe : x = e := by simpa using hx
    subst hxe
    exact Nat.le_refl _
  | cons a rest ih =>
    by_cases hx : a.2.2 < e.2.2
    · have hm : minByTs e (a :: rest) = minByTs a rest := by
        simp [minByTs, List.foldl_cons, hx]
      obtain ⟨l1, l2, hdec, hle, hlt⟩ := ih a
      refine ⟨e :: l1, l2, ?_, ?_, ?_⟩
      · rw [hm, List.cons_append, ← hdec]
      · intro x hx2
        rw [hm]
        rcases List.mem_cons.mp hx2 with rfl | hmem
        · exact Nat.le_of_lt (Nat.lt_of_le_of_lt (hle a (List.mem_cons_self a rest)) hx)
        · exact hle x hmem
      · intro x hx2
        rw [hm]
        rcases List.mem_cons.mp hx2 with rfl | hmem
        · exact Nat.lt_of_le_of_lt (hle a (List.mem_cons_self a rest)) hx
        · exact hlt x hmem
    · have hea : e.2.2 ≤ a.2.2 := Nat.le_of_not_lt hx
      have hm : minByTs e (a :: rest) = minByTs e rest := by
        simp [minByTs, List.foldl_cons, hx]
      obtain ⟨l1, l2, hdec, hle, hlt⟩ := ih e
      cases l1 with
      | nil =>
        simp only [List.nil_append] at hdec
        injection hdec with h1 h2
        refine ⟨[], a :: l2, ?_, ?_, by simp⟩
        · rw [hm, List.nil_append, ← h1, h2]
        · intro x hx2
          rw [hm]
          rcases List.mem_cons.mp hx2 with rfl | hmem
          · exact hle x (List.mem_cons_self x rest)
          · rcases List.mem_cons.mp hmem with rfl | hmem2
            · rw [← h1]
              exact hea
            · exact hle x (List.mem_cons_of_mem e hmem2)
      | cons b t =>
        rw [List.cons_append] at hdec
        injection hdec with h1 h2
        subst h1
        have hlt_e : (minByTs e rest).2.2 < e.2.2 := hlt e (List.mem_cons_self e t)
        refine ⟨e :: a :: t, l2, ?_, ?_, ?_⟩
        · rw [hm]
          have hshift : (e :: a :: t) ++ minByTs e rest :: l2 =
              e :: a :: (t ++ minByTs e rest :: l2) := by
            simp [List.cons_append]
          rw [hshift, ← h2]
        · intro x hx2
          rw [hm]
          rcases List.mem_cons.mp hx2 with rfl | hmem
          · exact hle x (List.mem_cons_self x rest)
          · rcases List.mem_cons.mp hmem with rfl | hmem2
            · exact Nat.le_of_lt (Nat.lt_of_lt_of_le hlt_e hea)
            · exact hle x (List.mem_cons_of_mem e hmem2)
        · intro x hx2
          rw [hm]
          rcases List.mem_cons.mp hx2 with rfl | hmem
          · exact hlt_e
          · rcases List.mem_cons.mp hmem with rfl | hmem2
            · exact Nat.lt_of_lt_of_le hlt_e hea
            · exact hlt x (List.mem_cons_of_mem e hmem2)

theorem set_ok_of_le {V : Type} (c : QueryCache V) (now : Nat) (k : String) (v : V)
    (hle : c.entries.length ≤ c.max_size) (hpos : 0 < c.max_size) :
    (c.set now k v).1 = true := by
  unfold QueryCache.set
  by_cases hge : c.entries.length ≥ c.max_size
  · rw [if_pos hge]
    cases hc : c.entries with
    | nil =>
      rw [hc] at hge
      simp at hge
      omega
    | cons e rest => simp [oldestEntry]
  · rw [if_neg hge]

theorem set_length_le {V : Type} (c : QueryCache V) (now : Nat) (k : String) (v : V)
    (hle : c.entries.length ≤ c.max_size) (hpos : 0 < c.max_size) :
    ((c.set now k v).2).entries.length ≤ c.max_size := by
  unfold QueryCache.set
  by_cases hge : c.entries.length ≥ c.max_size
  · have hlen : c.entries.length = c.max_size := Nat.le_antisymm hle hge
    rw [if_pos hge]
    cases hc : c.entries with
    | nil =>
      rw [hc] at hge
      simp at hge
      omega
    | cons e rest =>
      simp only [oldestEntry]
      show (setEntry k v now (eraseKey (minByTs e rest).1 (e :: rest))).length ≤ c.max_size
      have hmem : minByTs e rest ∈ e :: rest := by
        obtain ⟨l1, l2, hdec, hle2, hlt2⟩ := minByTs_decomp e rest
        rw [hdec]
        exact List.mem_append_right l1 (List.mem_cons_self _ l2)
      have h2 : (e :: rest).length = c.max_size := by
        rw [← hc]
        exact hlen
      generalize hmdef : minByTs e rest = m at hmem ⊢
      obtain ⟨mk, mv, mt⟩ := m
      show (setEntry k v now (eraseKey mk (e :: rest))).length ≤ c.max_size
      have herase : (eraseKey mk (e :: rest)).length < (e :: rest).length :=
        eraseKey_length_lt hmem
      have h1 := setEntry_length_le k v now (eraseKey mk (e :: rest))
      omega
  · rw [if_neg hge]
    show (setEntry k v now c.entries).length ≤ c.max_size
    have h1 := setEntry_length_le k v now c.entries
    have hlt := Nat.lt_of_not_le hge
    omega

theorem get_entries_length_le {V : Type} (c : QueryCache V) (now : Nat) (k : String) :
    ((c.get now k).2).entries.length ≤ c.entries.length := by
  unfold QueryCache.get
  cases hl : lookupKey k c.entries with
  | none => simp
  | some p =>
    obtain ⟨v1, ts1⟩ := p
    by_cases hexp : (now - ts1) % 86400 > c.ttl
    · simpa [hexp, eraseKey] using List.length_filter_le _ c.entries
    · simp [hexp]

theorem get_max_size_eq {V : Type} (c : QueryCache V) (now : Nat) (k : String) :
    ((c.get now k).2).max_size = c.max_size ∧ ((c.get now k).2).ttl = c.ttl := by
  unfold QueryCache.get
  cases hl : lookupKey k c.entries with
  | none => simp
  | some p =>
    obtain ⟨v1, ts1⟩ := p
    by_cases hexp : (now - ts1) % 86400 > c.ttl
    · simp [hexp]
    · simp [hexp]

theorem get_some_lookup {V : Type} {c : QueryCache V} {now : Nat} {k : String} {v : V}
    (h : (c.get now k).1 = some v) :
    ∃ ts, lookupKey k c.entries = some (v, ts) ∧ (now - ts) % 86400 ≤ c.ttl := by
  unfold QueryCache.get at h
  cases hl : lookupKey k c.entries with
  | none =>
    rw [hl] at h
    simp at h
  | some p =>
    obtain ⟨v1, ts1⟩ := p
    rw [hl] at h
    by_cases hexp : (now - ts1) % 86400 > c.ttl
    · simp [hexp] at h
    · simp [hexp] at h
      exact ⟨ts1, by rw [h], Nat.le_of_not_lt hexp⟩

theorem get_eq_absent {V : Type} (c : QueryCache V) (now : Nat) (k : String)
    (h : lookupKey k c.entries = none) : c.get now k = (none, c) := by
  unfold QueryCache.get
  rw [h]

theorem get_eq_fresh {V : Type} (c : QueryCache V) (now : Nat) (k : String)
    (v : V) (ts : Nat) (h : lookupKey k c.entries = some (v, ts))
    (hfresh : ¬ (now - ts) % 86400 > c.ttl) : c.get now k = (some v, c) := by
  unfold QueryCache.get
  rw [h]
  exact if_neg hfresh

theorem get_eq_expired {V : Type} (c : QueryCache V) (now : Nat) (k : String)
    (v : V) (ts : Nat) (h : lookupKey k c.entries = some (v, ts))
    (hexp : (now - ts) % 86400 > c.ttl) :
    c.get now k = (none, { c with entries := eraseKey k c.entries }) := by
  unfold QueryCache.get
  rw [h]
  exact if_pos hexp

theorem set_eq_evict {V : Type} (c : QueryCache V) (now : Nat) (k : String) (v : V)
    (hge : c.entries.length ≥ c.max_size) (e : String × V × Nat)
    (rest : List (String × V × Nat)) (hc : c.entries = e :: rest) :
    (c.set now k v).2 =
      { c with entries := setEntry k v now (eraseKey (minByTs e rest).1 c.entries) } := by
  unfold QueryCache.set
  rw [if_pos hge, hc]
  simp [oldestEntry]

theorem set_eq_insert {V : Type} (c : QueryCache V) (now : Nat) (k : String) (v : V)
    (hlt : c.entries.length < c.max_size) :
    (c.set now k v).2 = { c with entries := setEntry k v now c.entries } := by
  unfold QueryCache.set
  rw [if_neg (Nat.not_le.mpr hlt)]

theorem get_connection_eq_some (p : ConnectionPool) (c : Nat)
    (h : p.connections.getLast? = some c) :
    p.get_connection =
      (c, { p with connections := p.connections.dropLast, acquired := p.acquired + 1 }) := by
  unfold ConnectionPool.get_connection
  rw [h]

theorem get_connection_eq_none (p : ConnectionPool)
    (h : p.connections.getLast? = none) :
    p.get_connection =
      (p.next_id, { p with next_id := p.next_id + 1, acquired := p.acquired + 1 }) := by
  unfold ConnectionPool.get_connection
  rw [h]

theorem return_connection_eq_lt (p : ConnectionPool) (c : Nat)
    (h : p.connections.length < p.pool_size) :
    p.return_connection c = { p with connections := p.connections ++ [c] } := by
  unfold ConnectionPool.return_connection
  rw [if_pos h]

theorem return_connection_eq_ge (p : ConnectionPool) (c : Nat)
    (h : ¬ p.connections.length < p.pool_size) :
    p.return_connection c = { p with closed := p.closed ++ [c] } := by
  unfold ConnectionPool.return_connection
  rw [if_neg h]

theorem poolStep_inv (p : ConnectionPool) (op : PoolOp)
    (h : p.connections.length ≤ p.pool_size) :
    (poolStep p op).connections.length ≤ (poolStep p op).pool_size ∧
    (poolStep p op).pool_size = p.pool_size := by
  cases op with
  | acquire =>
    have hps : poolStep p PoolOp.acquire = (p.get_connection).2 := rfl
    rw [hps]
    cases hg : p.connections.getLast? with
    | some c =>
      rw [get_connection_eq_some p c hg]
      refine ⟨?_, rfl⟩
      show p.connections.dropLast.length ≤ p.pool_size
      rw [List.length_dropLast]
      omega
    | none =>
      rw [get_connection_eq_none p hg]
      exact ⟨h, rfl⟩
  | release c =>
    have hps : poolStep p (PoolOp.release c) = p.return_connection c := rfl
    rw [hps]
    by_cases hlt : p.connections.length < p.pool_size
    · rw [return_connection_eq_lt p c hlt]
      refine ⟨?_, rfl⟩
      show (p.connections ++ [c]).length ≤ p.pool_size
      rw [List.length_append]
      simp only [List.length_cons, List.length_nil]
      omega
    · rw [return_connection_eq_ge p c hlt]
      exact ⟨h, rfl⟩

theorem applyPoolOps_inv (ops : List PoolOp) (p : ConnectionPool)
    (h : p.connections.length ≤ p.pool_size) :
    (applyPoolOps p ops).connections.length ≤ (applyPoolOps p ops).pool_size ∧
    (applyPoolOps p ops).pool_size = p.pool_size := by
  induction ops generalizing p with
  | nil => exact ⟨h, rfl⟩
  | cons op rest ih =>
    have hstep : applyPoolOps p (op :: rest) = applyPoolOps (poolStep p op) rest := rfl
    have h1 := poolStep_inv p op h
    have h2 := ih (poolStep p op) (h1.2 ▸ h1.1)
    rw [hstep]
    exact ⟨h2.1, h2.2.trans h1.2⟩

-- ==================== Helper lemmas: builder ====================

theorem applyOps_where_values (qb : QueryBuilder) (ops : List QBOp) :
    (applyOps qb ops).where_values = qb.where_values ++ (ops.map QBOp.whereVals).flatten := by
  induction ops generalizing qb with
  | nil => simp [applyOps]
  | cons op rest ih =>
    have hstep : applyOps qb (op :: rest) = applyOps (QBOp.apply qb op) rest := rfl
    rw [hstep, ih]
    cases op <;>
      simp [QBOp.apply, QBOp.whereVals, QueryBuilder.whereC, QueryBuilder.select,
        QueryBuilder.join, QueryBuilder.left_join, QueryBuilder.order_by,
        QueryBuilder.limit, QueryBuilder.offset, List.append_assoc]

theorem applyOps_where_clauses (qb : QueryBuilder) (ops : List QBOp) :
    (applyOps qb ops).where_clauses = qb.where_clauses ++ (ops.map QBOp.whereConds).flatten := by
  induction ops generalizing qb with
  | nil => simp [applyOps]
  | cons op rest ih =>
    have hstep : applyOps qb (op :: rest) = applyOps (QBOp.apply qb op) rest := rfl
    rw [hstep, ih]
    cases op <;>
      simp [QBOp.apply, QBOp.whereConds, QueryBuilder.whereC, QueryBuilder.select,
        QueryBuilder.join, QueryBuilder.left_join, QueryBuilder.order_by,
        QueryBuilder.limit, QueryBuilder.offset, List.append_assoc]

theorem countQ_append (a b : String) : countQ (a ++ b) = countQ a + countQ b := by
  obtain ⟨la⟩ := a
  obtain ⟨lb⟩ := b
  simp [countQ, String.append, List.count_append]

theorem countQ_joinSep (sep : String) (hsep : countQ sep = 0) (l : List String) :
    countQ (joinSep sep l) = (l.map countQ).sum := by
  induction l with
  | nil => simp [joinSep, countQ]
  | cons x rest ih =>
    cases rest with
    | nil => simp [joinSep]
    | cons y t =>
      rw [joinSep, countQ_append, countQ_append, hsep, ih]
      simp [List.map_cons, List.sum_cons]

theorem builderClean_new (t : String) (h : countQ t = 0) :
    BuilderClean (QueryBuilder.new t) := by
  refine ⟨h, ?_, ?_, ?_, ?_, ?_, rfl⟩
  · intro f hf
    have hfs : f = "*" := by simpa [QueryBuilder.new] using hf
    subst hfs
    decide
  · intro j hj
    simp [QueryBuilder.new] at hj
  · intro ob hob
    simp [QueryBuilder.new] at hob
  · intro n hn
    simp [QueryBuilder.new] at hn
  · intro n hn
    simp [QueryBuilder.new] at hn

theorem builderClean_apply (qb : QueryBuilder) (op : QBOp)
    (h1 : BuilderClean qb) (h2 : op.clean) : BuilderClean (QBOp.apply qb op) := by
  obtain ⟨ht, hsel, hjoin, hob, hlim, hoff, hwv⟩ := h1
  cases op with
  | select fields =>
    exact ⟨ht, h2, hjoin, hob, hlim, hoff, hwv⟩
  | whereC c vs =>
    have h2c : countQ c = vs.length := h2
    refine ⟨ht, hsel, hjoin, hob, hlim, hoff, ?_⟩
    simp only [QBOp.apply, QueryBuilder.whereC, List.map_append, List.sum_append,
      List.length_append, List.map_cons, List.map_nil, List.sum_cons, List.sum_nil]
    omega
  | join t o =>
    obtain ⟨h2a, h2b⟩ := h2
    refine ⟨ht, hsel, ?_, hob, hlim, hoff, hwv⟩
    intro j hj
    simp only [QBOp.apply, QueryBuilder.join, List.mem_append, List.mem_singleton] at hj
    rcases hj with hj | rfl
    · exact hjoin j hj
    · rw [countQ_append, countQ_append, countQ_append]
      have hJ : countQ "JOIN " = 0 := by decide
      have hO : countQ " ON " = 0 := by decide
      omega
  | left_join t o =>
    obtain ⟨h2a, h2b⟩ := h2
    refine ⟨ht, hsel, ?_, hob, hlim, hoff, hwv⟩
    intro j hj
    simp only [QBOp.apply, QueryBuilder.left_join, List.mem_append,
      List.mem_singleton] at hj
    rcases hj with hj | rfl
    · exact hjoin j hj
    · rw [countQ_append, countQ_append, countQ_append]
      have hJ : countQ "LEFT JOIN " = 0 := by decide
      have hO : countQ " ON " = 0 := by decide
      omega
  | order_by f d =>
    obtain ⟨h2a, h2b⟩ := h2
    refine ⟨ht, hsel, hjoin, ?_, hlim, hoff, hwv⟩
    intro ob hobeq
    simp only [QBOp.apply, QueryBuilder.order_by, Option.some.injEq] at hobeq
    rw [← hobeq, countQ_append, countQ_append, countQ_append]
    have hO : countQ "ORDER BY " = 0 := by decide
    have hS : countQ " " = 0 := by decide
    omega
  | limit n =>
    have h2c : countQ (toString n) = 0 := h2
    refine ⟨ht, hsel, hjoin, hob, ?_, hoff, hwv⟩
    intro n1 hn
    simp only [QBOp.apply, QueryBuilder.limit, Option.some.injEq] at hn
    rw [← hn]
    exact h2c
  | offset n =>
    have h2c : countQ (toString n) = 0 := h2
    refine ⟨ht, hsel, hjoin, hob, hlim, ?_, hwv⟩
    intro n1 hn
    simp only [QBOp.apply, QueryBuilder.offset, Option.some.injEq] at hn
    rw [← hn]
    exact h2c

theorem builderClean_applyOps (t : String) (ops : List QBOp) (h : countQ t = 0)
    (hops : ∀ op ∈ ops, QBOp.clean op) :
    BuilderClean (applyOps (QueryBuilder.new t) ops) := by
  suffices hgen : ∀ qb, BuilderClean qb → BuilderClean (applyOps qb ops) from
    hgen (QueryBuilder.new t) (builderClean_new t h)
  induction ops with
  | nil => exact fun qb hqb => hqb
  | cons op rest ih =>
    intro qb hqb
    have hstep : applyOps qb (op :: rest) = applyOps (QBOp.apply qb op) rest := rfl
    rw [hstep]
    exact ih (fun o ho => hops o (List.mem_cons_of_mem op ho)) _
      (builderClean_apply qb op hqb (hops op (List.mem_cons_self op rest)))

theorem builderClean_build (qb : QueryBuilder) (h : BuilderClean qb) :
    countQ (qb.build).1 = ((qb.build).2).length := by
  obtain ⟨ht, hsel, hjoin, hob, hlim, hoff, hwv⟩ := h
  have hsel0 : countQ (joinSep ", " qb.select_fields) = 0 := by
    rw [countQ_joinSep ", " (by decide)]
    apply List.sum_eq_zero
    intro x hx
    obtain ⟨f, hf, rfl⟩ := List.mem_map.mp hx
    exact hsel f hf
  have hbs : countQ (buildSelect qb) = 0 := by
    unfold buildSelect
    rw [countQ_append, countQ_append, countQ_append, hsel0, ht]
    decide
  have hj : ∀ s, countQ (addJoins qb s) = countQ s := by
    intro s
    unfold addJoins
    by_cases hje : qb.joins.isEmpty
    · rw [if_pos hje]
    · rw [if_neg hje, countQ_append, countQ_append, countQ_joinSep " " (by decide)]
      have hz : (qb.joins.map countQ).sum = 0 := by
        apply List.sum_eq_zero
        intro x hx
        obtain ⟨j, hjm, rfl⟩ := List.mem_map.mp hx
        exact hjoin j hjm
      have hsp : countQ " " = 0 := by decide
      omega
  have hw : ∀ s, countQ (addWhere qb s) =
      countQ s + (qb.where_clauses.map countQ).sum := by
    intro s
    unfold addWhere
    by_cases hwe : qb.where_clauses.isEmpty
    · rw [if_pos hwe]
      have hnil : qb.where_clauses = [] := List.isEmpty_iff.mp hwe
      rw [hnil]
      simp
    · rw [if_neg hwe, countQ_append, countQ_append, countQ_joinSep " AND " (by decide)]
      have hwh : countQ " WHERE " = 0 := by decide
      omega
  have ho : ∀ s, countQ (addOrder qb s) = countQ s := by
    intro s
    unfold addOrder
    cases hoc : qb.order_by_clause with
    | none => rfl
    | some ob =>
      show countQ (if ob = "" then s else s ++ " " ++ ob) = countQ s
      by_cases hoe : ob = ""
      · rw [if_pos hoe]
      · rw [if_neg hoe, countQ_append, countQ_append, hob ob hoc]
        have hsp : countQ " " = 0 := by decide
        omega
  have hl : ∀ s, countQ (addLimit qb s) = countQ s := by
    intro s
    unfold addLimit
    cases hlc : qb.limit_value with
    | none => rfl
    | some n =>
      show countQ (if n = 0 then s else s ++ " LIMIT " ++ toString n) = countQ s
      by_cases hne : n = 0
      · rw [if_pos hne]
      · rw [if_neg hne, countQ_append, countQ_append, hlim n hlc]
        have hsp : countQ " LIMIT " = 0 := by decide
        omega
  have hof : ∀ s, countQ (addOffset qb s) = countQ s := by
    intro s
    unfold addOffset
    cases hoc : qb.offset_value with
    | none => rfl
    | some n =>
      show countQ (if n = 0 then s else s ++ " OFFSET " ++ toString n) = countQ s
      by_cases hne : n = 0
      · rw [if_pos hne]
      · rw [if_neg hne, countQ_append, countQ_append, hoff n hoc]
        have hsp : countQ " OFFSET " = 0 := by decide
        omega
  show countQ (addOffset qb (addLimit qb (addOrder qb (addWhere qb
      (addJoins qb (buildSelect qb)))))) = qb.where_values.length
  rw [hof, hl, ho, hw, hj, hbs]
  omega

-- ==================== Helper lemmas: database reads ====================

theorem lookup_after_set {V : Type} (c : QueryCache V) (now : Nat) (k : String) (v : V)
    (hok : (c.set now k v).1 = true) :
    lookupKey k ((c.set now k v).2).entries = some (v, now) := by
  unfold QueryCache.set at hok ⊢
  by_cases hge : c.entries.length ≥ c.max_size
  · rw [if_pos hge]
    rw [if_pos hge] at hok
    cases ho : oldestEntry c.entries with
    | none =>
      rw [ho] at hok
      simp at hok
    | some old =>
      exact lookupKey_setEntry_self k v now (eraseKey old.1 c.entries)
  · rw [if_neg hge]
    exact lookupKey_setEntry_self k v now c.entries

theorem fetch_one_hit (db : Database) (store : String → List Val → List Row)
    (now : Nat) (sql : String) (params : List Val) (ok : Bool) (cv : CVal)
    (h : (db.cache.get now (cacheKey sql params)).1 = some cv)
    (htr : cv.truthy = true) :
    Database.fetch_one db store now sql params ok =
      (Except.ok (some cv),
       { db with cache := (db.cache.get now (cacheKey sql params)).2 }) := by
  simp only [Database.fetch_one]
  rw [h]
  simp [cvalOptTruthy, htr]

theorem fetch_all_hit (db : Database) (store : String → List Val → List Row)
    (now : Nat) (sql : String) (params : List Val) (ok : Bool) (cv : CVal)
    (h : (db.cache.get now (cacheKey sql params)).1 = some cv)
    (htr : cv.truthy = true) :
    Database.fetch_all db store now sql params ok =
      (Except.ok cv,
       { db with cache := (db.cache.get now (cacheKey sql params)).2 }) := by
  simp only [Database.fetch_all]
  rw [h]
  simp [htr]

theorem fetch_one_miss_empty (db : Database) (store : String → List Val → List Row)
    (now : Nat) (sql : String) (params : List Val)
    (h : cvalOptTruthy ((db.cache.get now (cacheKey sql params)).1) = false)
    (hstore : store sql params = []) :
    Database.fetch_one db store now sql params true =
      (Except.ok none,
       { pool := ((db.pool.get_connection).2).return_connection (db.pool.get_connection).1,
         cache := (db.cache.get now (cacheKey sql params)).2,
         trace := db.trace ++ [(sql, params)] }) := by
  simp only [Database.fetch_one]
  rw [h, hstore]
  simp

theorem fetch_one_miss_cons (db : Database) (store : String → List Val → List Row)
    (now : Nat) (sql : String) (params : List Val) (rh : String × Val) (rt : Row)
    (rs : List Row)
    (h : cvalOptTruthy ((db.cache.get now (cacheKey sql params)).1) = false)
    (hstore : store sql params = (rh :: rt) :: rs)
    (hsetok : (((db.cache.get now (cacheKey sql params)).2).set now
        (cacheKey sql params) (CVal.one (rh :: rt))).1 = true) :
    Database.fetch_one db store now sql params true =
      (Except.ok (some (CVal.one (rh :: rt))),
       { pool := ((db.pool.get_connection).2).return_connection (db.pool.get_connection).1,
         cache := (((db.cache.get now (cacheKey sql params)).2).set now
           (cacheKey sql params) (CVal.one (rh :: rt))).2,
         trace := db.trace ++ [(sql, params)] }) := by
  simp only [Database.fetch_one]
  rw [h, hstore]
  simp [hsetok]

theorem fetch_one_miss_err (db : Database) (store : String → List Val → List Row)
    (now : Nat) (sql : String) (params : List Val)
    (h : cvalOptTruthy ((db.cache.get now (cacheKey sql params)).1) = false) :
    Database.fetch_one db store now sql params false =
      (Except.error (),
       { db with
         pool := ((db.pool.get_connection).2).return_connection (db.pool.get_connection).1,
         cache := (db.cache.get now (cacheKey sql params)).2 }) := by
  simp only [Database.fetch_one]
  rw [h]
  simp

theorem fetch_one_miss_pool (db : Database) (store : String → List Val → List Row)
    (now : Nat) (sql : String) (params : List Val) (ok : Bool)
    (h : cvalOptTruthy ((db.cache.get now (cacheKey sql params)).1) = false) :
    ((Database.fetch_one db store now sql params ok).2).pool =
      ((db.pool.get_connection).2).return_connection (db.pool.get_connection).1 := by
  simp only [Database.fetch_one]
  rw [h]
  simp only [Bool.false_eq_true, if_false]
  split
  · split <;> rfl
  · rfl

theorem fetch_all_to_miss (db : Database) (store : String → List Val → List Row)
    (now : Nat) (sql : String) (params : List Val) (ok : Bool)
    (h : cvalOptTruthy ((db.cache.get now (cacheKey sql params)).1) = false) :
    Database.fetch_all db store now sql params ok =
      Database.fetch_all_miss db store now sql params ok
        ((db.cache.get now (cacheKey sql params)).2) := by
  simp only [Database.fetch_all]
  cases hg : (db.cache.get now (cacheKey sql params)).1 with
  | none => rfl
  | some cv =>
    rw [hg] at h
    have hcv : cv.truthy = false := h
    simp [hcv]

theorem fetch_all_miss_empty (db : Database) (store : String → List Val → List Row)
    (now : Nat) (sql : String) (params : List Val) (cache1 : QueryCache CVal)
    (hstore : store sql params = []) :
    Database.fetch_all_miss db store now sql params true cache1 =
      (Except.ok (CVal.many []),
       { pool := ((db.pool.get_connection).2).return_connection (db.pool.get_connection).1,
         cache := cache1,
         trace := db.trace ++ [(sql, params)] }) := by
  simp only [Database.fetch_all_miss]
  rw [hstore]
  simp

theorem fetch_all_miss_cons (db : Database) (store : String → List Val → List Row)
    (now : Nat) (sql : String) (params : List Val) (r : Row) (rs : List Row)
    (cache1 : QueryCache CVal)
    (hstore : store sql params = r :: rs)
    (hsetok : (cache1.set now (cacheKey sql params) (CVal.many (r :: rs))).1 = true) :
    Database.fetch_all_miss db store now sql params true cache1 =
      (Except.ok (CVal.many (r :: rs)),
       { pool := ((db.pool.get_connection).2).return_connection (db.pool.get_connection).1,
         cache := (cache1.set now (cacheKey sql params) (CVal.many (r :: rs))).2,
         trace := db.trace ++ [(sql, params)] }) := by
  simp only [Database.fetch_all_miss]
  rw [hstore]
  simp [hsetok]

theorem fetch_all_miss_false (db : Database) (store : String → List Val → List Row)
    (now : Nat) (sql : String) (params : List Val) (cache1 : QueryCache CVal) :
    Database.fetch_all_miss db store now sql params false cache1 =
      (Except.error (),
       { db with
         pool := ((db.pool.get_connection).2).return_connection (db.pool.get_connection).1,
         cache := cache1 }) := rfl

theorem fetch_all_miss_pool (db : Database) (store : String → List Val → List Row)
    (now : Nat) (sql : String) (params : List Val) (ok : Bool)
    (cache1 : QueryCache CVal) :
    ((Database.fetch_all_miss db store now sql params ok cache1).2).pool =
      ((db.pool.get_connection).2).return_connection (db.pool.get_connection).1 := by
  simp only [Database.fetch_all_miss]
  split
  · split
    · rfl
    · split <;> rfl
  · rfl

-- ==================== Claims ====================

/-- C2: the code contradicts the claim: `QueryBuilder.build` guards the
limit and offset clauses with Python truthiness (`if self.limit_value:`),
so an explicitly set `limit(0)` or `offset(0)` is silently dropped from
the produced SQL instead of appearing verbatim, while a non-zero value is
emitted. -/
theorem C2_limit0_offset0_dropped :
    ((QueryBuilder.new "t").limit 0).build = ("SELECT * FROM t", []) ∧
    ((QueryBuilder.new "t").offset 0).build = ("SELECT * FROM t", []) ∧
    ((QueryBuilder.new "t").limit 5).build = ("SELECT * FROM t LIMIT 5", []) ∧
    ((QueryBuilder.new "t").offset 3).build = ("SELECT * FROM t OFFSET 3", []) := by
  decide

/-- C3: for every sequence of fluent calls on a fresh builder, the bound
values of `build` are exactly the `where` call values concatenated in call
order, the `WHERE` fragments are joined in call order, the placeholder
count of the produced SQL equals the bound-value count whenever each
fragment carries one `?` per value and no other argument contains `?`
(so the values align left-to-right with the placeholders), and the
concrete example of the spec builds exactly as stated. -/
theorem C3_build_order (t : String) (ops : List QBOp) :
    ((applyOps (QueryBuilder.new t) ops).build).2 = (ops.map QBOp.whereVals).flatten ∧
    (applyOps (QueryBuilder.new t) ops).where_clauses = (ops.map QBOp.whereConds).flatten ∧
    (countQ t = 0 → (∀ op ∈ ops, QBOp.clean op) →
      countQ ((applyOps (QueryBuilder.new t) ops).build).1 =
        (((applyOps (QueryBuilder.new t) ops).build).2).length) ∧
    (applyOps (QueryBuilder.new "t")
        [QBOp.whereC "a = ?" [Val.vint 1], QBOp.whereC "b = ?" [Val.vint 2],
         QBOp.limit 5]).build =
      ("SELECT * FROM t WHERE a = ? AND b = ? LIMIT 5", [Val.vint 1, Val.vint 2]) := by
  refine ⟨?_, ?_, ?_, by decide⟩
  · show (applyOps (QueryBuilder.new t) ops).where_values = _
    rw [applyOps_where_values]
    simp [QueryBuilder.new]
  · rw [applyOps_where_clauses]
    simp [QueryBuilder.new]
  · intro h1 h2
    exact builderClean_build _ (builderClean_applyOps t ops h1 h2)

/-- C3 witness: the placeholder-alignment conjunct at a concrete clean
call sequence. -/
theorem C3_build_order_witness :
    countQ ((applyOps (QueryBuilder.new "users")
      [QBOp.whereC "a = ? AND b = ?" [Val.vint 1, Val.vstr "x"],
       QBOp.limit 7]).build).1 =
    (((applyOps (QueryBuilder.new "users")
      [QBOp.whereC "a = ? AND b = ?" [Val.vint 1, Val.vstr "x"],
       QBOp.limit 7]).build).2).length :=
  (C3_build_order "users"
    [QBOp.whereC "a = ? AND b = ?" [Val.vint 1, Val.vstr "x"],
     QBOp.limit 7]).2.2.1 (by decide) (by decide)

/-- C4 counterexample: the claim requires `now - insertedAt < ttl` for a
value to be returned, but at age exactly `ttl` (3600 seconds after
insertion, with `ttl = 3600`) `get` still returns the stored value: the
code only expires strictly beyond `ttl`. -/
theorem C4_counterexample :
    (c4cache.get 3600 "k").1 = some 7 ∧ ¬ (3600 - 0 < c4cache.ttl) := by
  constructor
  · rfl
  · decide

/-- C4 (amended): `get k` returns the stored value iff the key is
present and the seconds-component of its age — `(now - insertedAt) %
86400`, because the code reads `timedelta.seconds` — is at most `ttl`
(boundary included); an absent key returns `None` with the cache
untouched; a present entry whose seconds-component of age exceeds `ttl`
is deleted and `None` is returned. -/
theorem C4_get_ttl_amended {V : Type} (c : QueryCache V) (now : Nat) (k : String) :
    (lookupKey k c.entries = none → c.get now k = (none, c)) ∧
    (∀ v ts, lookupKey k c.entries = some (v, ts) →
      ((now - ts) % 86400 ≤ c.ttl → c.get now k = (some v, c)) ∧
      ((now - ts) % 86400 > c.ttl →
        c.get now k = (none, { c with entries := eraseKey k c.entries }) ∧
        lookupKey k (eraseKey k c.entries) = none)) := by
  refine ⟨get_eq_absent c now k, ?_⟩
  intro v ts h
  exact ⟨fun hle2 => get_eq_fresh c now k v ts h (by omega),
    fun hgt => ⟨get_eq_expired c now k v ts h hgt, lookupKey_eraseKey_self k c.entries⟩⟩

/-- C4 witness: a fresh hit returns the value, an expired entry is
deleted and reported absent. -/
theorem C4_get_ttl_witness :
    c4cache.get 10 "k" = (some 7, c4cache) ∧
    c4cache.get 5000 "k" =
      (none, { c4cache with entries := eraseKey "k" c4cache.entries }) :=
  ⟨((C4_get_ttl_amended c4cache 10 "k").2 7 0 (by decide)).1 (by decide),
   (((C4_get_ttl_amended c4cache 5000 "k").2 7 0 (by decide)).2 (by decide)).1⟩

/-- C5: on a cache with distinct keys, at most `max_size` entries and a
positive capacity, `set` succeeds; when the cache is at capacity it
evicts exactly one entry — the first one, in insertion order, carrying
the minimal `insertedAt` — before writing the new entry, and the
resulting cache never holds more than `max_size` entries. -/
theorem C5_set_evicts_oldest {V : Type} (c : QueryCache V) (now : Nat) (k : String)
    (v : V) (hnd : (c.entries.map Prod.fst).Nodup)
    (hle : c.entries.length ≤ c.max_size) (hpos : 0 < c.max_size) :
    (c.set now k v).1 = true ∧
    ((c.set now k v).2).entries.length ≤ c.max_size ∧
    (c.entries.length ≥ c.max_size →
      ∃ l1 old l2, c.entries = l1 ++ old :: l2 ∧
        (∀ x ∈ c.entries, old.2.2 ≤ x.2.2) ∧
        (∀ x ∈ l1, old.2.2 < x.2.2) ∧
        ((c.set now k v).2).entries = setEntry k v now (eraseKey old.1 c.entries) ∧
        (eraseKey old.1 c.entries).length + 1 = c.entries.length) ∧
    (c.entries.length < c.max_size →
      ((c.set now k v).2).entries = setEntry k v now c.entries) := by
  refine ⟨set_ok_of_le c now k v hle hpos, set_length_le c now k v hle hpos, ?_, ?_⟩
  · intro hge
    cases hc : c.entries with
    | nil =>
      rw [hc] at hge
      simp at hge
      omega
    | cons e rest =>
      obtain ⟨l1, l2, hdec, hle2, hlt2⟩ := minByTs_decomp e rest
      have hmem : minByTs e rest ∈ e :: rest := by
        rw [hdec]
        exact List.mem_append_right l1 (List.mem_cons_self _ l2)
      have hset := set_eq_evict c now k v hge e rest hc
      generalize hmdef : minByTs e rest = m at hdec hle2 hlt2 hmem hset
      obtain ⟨mk, mv, mt⟩ := m
      refine ⟨l1, (mk, mv, mt), l2, hdec, hle2, hlt2, ?_, ?_⟩
      · rw [hset, hc]
      · have hnd2 : ((e :: rest).map Prod.fst).Nodup := by
          rw [← hc]
          exact hnd
        exact eraseKey_length_nodup hnd2 hmem
  · intro hlt
    rw [set_eq_insert c now k v hlt]

/-- C5 witness: on the full three-entry cache, `set` succeeds and keeps
the size within capacity. -/
theorem C5_set_evicts_oldest_witness :
    (c5cache.set 10 "d" 4).1 = true ∧
    ((c5cache.set 10 "d" 4).2).entries.length ≤ c5cache.max_size :=
  ⟨(C5_set_evicts_oldest c5cache 10 "d" 4 (by decide) (by decide) (by decide)).1,
   (C5_set_evicts_oldest c5cache 10 "d" 4 (by decide) (by decide) (by decide)).2.1⟩

/-- C6: `save` dispatches on `hasattr(self, id) and self.id`: a truthy
`id` yields an UPDATE of every non-key attribute keyed by `id = ?` with
the id value bound last; a missing or falsy `id` — including `id = 0` —
yields an INSERT of every attribute present on the instance. -/
theorem C6_save_dispatch (m : Model)
    (hclean : ∀ e ∈ m.attrs, startsWithUnderscore e.1 = false) :
    (∀ idv, lookupAttr "id" m.attrs = some idv → idv.truthy = true →
      m.saveStmt =
        ("UPDATE " ++ m.tablename ++ " SET " ++
           joinSep ", "
             ((m.attrs.filter (fun e => e.1 ≠ "id")).map (fun e => e.1 ++ " = ?")) ++
           " WHERE id = ?",
         (m.attrs.filter (fun e => e.1 ≠ "id")).map Prod.snd ++ [idv])) ∧
    ((lookupAttr "id" m.attrs = none ∨
      (∃ idv, lookupAttr "id" m.attrs = some idv ∧ idv.truthy = false)) →
      m.saveStmt =
        ("INSERT INTO " ++ m.tablename ++ " (" ++
           joinSep ", " (m.attrs.map Prod.fst) ++ ") VALUES (" ++
           joinSep ", " (m.attrs.map (fun _ => "?")) ++ ")",
         m.attrs.map Prod.snd)) := by
  have hfilter : m.attrs.filter (fun e => ! startsWithUnderscore e.1) = m.attrs := by
    apply List.filter_eq_self.mpr
    intro a ha
    simp [hclean a ha]
  constructor
  · intro idv hid htr
    simp only [Model.saveStmt]
    rw [hfilter, hid]
    simp [htr]
  · intro hcase
    rcases hcase with hid | ⟨idv, hid, htr⟩
    · simp only [Model.saveStmt]
      rw [hfilter, hid]
    · simp only [Model.saveStmt]
      rw [hfilter, hid]
      simp [htr]

/-- C6 witness: the falsy id `0` takes the INSERT branch (with the id
column included), and a truthy id takes the UPDATE branch with the id
bound last. -/
theorem C6_save_dispatch_witness :
    c6model0.saveStmt =
      ("INSERT INTO users (id, name) VALUES (?, ?)", [Val.vint 0, Val.vstr "A"]) ∧
    c6model7.saveStmt =
      ("UPDATE users SET name = ? WHERE id = ?", [Val.vstr "A", Val.vint 7]) := by
  constructor
  · have h := (C6_save_dispatch c6model0 (by decide)).2
      (Or.inr ⟨Val.vint 0, by decide, by decide⟩)
    rw [h]
    decide
  · have h := (C6_save_dispatch c6model7 (by decide)).1 (Val.vint 7) (by decide) (by decide)
    rw [h]
    decide

/-- C7: `get_connection` pops the most recently pooled idle connection
when one is available and opens a fresh one otherwise; `return_connection`
re-pools exactly when the idle list is below `pool_size` and closes the
connection otherwise; hence, starting from a freshly initialized pool,
the idle list never exceeds `pool_size` under any acquire/release
sequence. -/
theorem C7_pool_bounded (database : String) (n : Nat) :
    (∀ p : ConnectionPool, ∀ c, p.connections.getLast? = some c →
      p.get_connection =
        (c, { p with connections := p.connections.dropLast,
                     acquired := p.acquired + 1 })) ∧
    (∀ p : ConnectionPool, p.connections.getLast? = none →
      p.get_connection =
        (p.next_id, { p with next_id := p.next_id + 1,
                             acquired := p.acquired + 1 })) ∧
    (∀ p : ConnectionPool, ∀ c, p.connections.length < p.pool_size →
      p.return_connection c = { p with connections := p.connections ++ [c] }) ∧
    (∀ p : ConnectionPool, ∀ c, ¬ p.connections.length < p.pool_size →
      p.return_connection c = { p with closed := p.closed ++ [c] }) ∧
    (∀ ops : List PoolOp,
      (applyPoolOps (ConnectionPool.init database n) ops).connections.length ≤ n) := by
  refine ⟨get_connection_eq_some, get_connection_eq_none,
    return_connection_eq_lt, return_connection_eq_ge, ?_⟩
  intro ops
  have hinit : (ConnectionPool.init database n).connections.length ≤
      (ConnectionPool.init database n).pool_size := by
    simp [ConnectionPool.init]
  have h := applyPoolOps_inv ops (ConnectionPool.init database n) hinit
  have hps : (applyPoolOps (ConnectionPool.init database n) ops).pool_size = n := h.2
  exact le_trans h.1 (le_of_eq hps)

/-- C7 witness: a two-slot pool pops its last idle connection, and the
idle list stays within the bound after more releases than the pool can
hold. -/
theorem C7_pool_bounded_witness :
    (ConnectionPool.init "deepcode.db" 2).get_connection =
      (1, { ConnectionPool.init "deepcode.db" 2 with
            connections := (ConnectionPool.init "deepcode.db" 2).connections.dropLast,
            acquired := (ConnectionPool.init "deepcode.db" 2).acquired + 1 }) ∧
    (applyPoolOps (ConnectionPool.init "deepcode.db" 2)
      [PoolOp.acquire, PoolOp.release 5, PoolOp.release 6,
       PoolOp.release 7]).connections.length ≤ 2 :=
  ⟨(C7_pool_bounded "deepcode.db" 2).1 (ConnectionPool.init "deepcode.db" 2) 1 (by decide),
   (C7_pool_bounded "deepcode.db" 2).2.2.2.2
     [PoolOp.acquire, PoolOp.release 5, PoolOp.release 6, PoolOp.release 7]⟩

/-- C1 counterexample: a successful `execute` returns with the cache
exactly as it was — here still holding its one entry — contradicting the
claim that the cache holds no entries immediately after any successful
`execute`. -/
theorem C1_counterexample :
    (Database.execute c1db "DELETE FROM users WHERE id = ?" [Val.vint 1] true).1 =
      Except.ok () ∧
    ((Database.execute c1db "DELETE FROM users WHERE id = ?" [Val.vint 1] true).2).cache =
      c1db.cache ∧
    c1db.cache.entries.length = 1 :=
  ⟨rfl, rfl, rfl⟩

/-- C1 (amended): `execute` acquires a connection, runs the statement,
commits, releases the connection (acquire and release pair exactly), and
returns a success handle — but it leaves the query cache exactly as it
was: `execute` itself never clears the cache. -/
theorem C1_execute_cache_unchanged (db : Database) (sql : String) (params : List Val)
    (ok : Bool) :
    ((Database.execute db sql params ok).2).cache = db.cache ∧
    (Database.execute db sql params true).1 = Except.ok () ∧
    ((Database.execute db sql params true).2).trace = db.trace ++ [(sql, params)] ∧
    ((Database.execute db sql params ok).2).pool =
      ((db.pool.get_connection).2).return_connection (db.pool.get_connection).1 := by
  refine ⟨?_, rfl, rfl, ?_⟩
  · cases ok <;> rfl
  · cases ok <;> rfl

/-- C8: reads consult the cache first: a hit — the cache holds a fresh,
truthy value for `encode(sql, params)` — is returned as-is with the pool
and the store trace untouched (no connection acquired, no statement
run); a miss runs the query on the store, records the statement, and
populates the cache if and only if the result is non-empty: a missing
row or an empty row list is returned but never cached. -/
theorem C8_read_cache_policy (db : Database) (store : String → List Val → List Row)
    (now : Nat) (sql : String) (params : List Val)
    (hwf : ∀ e ∈ db.cache.entries, CVal.truthy e.2.1 = true)
    (hlen : db.cache.entries.length ≤ db.cache.max_size)
    (hpos : 0 < db.cache.max_size)
    (hrows : ∀ r ∈ store sql params, r ≠ []) :
    (∀ cv, (db.cache.get now (cacheKey sql params)).1 = some cv →
      ∀ ok,
        Database.fetch_one db store now sql params ok =
          (Except.ok (some cv),
           { db with cache := (db.cache.get now (cacheKey sql params)).2 }) ∧
        Database.fetch_all db store now sql params ok =
          (Except.ok cv,
           { db with cache := (db.cache.get now (cacheKey sql params)).2 })) ∧
    ((db.cache.get now (cacheKey sql params)).1 = none →
      (Database.fetch_one db store now sql params true).1 =
        Except.ok (((store sql params).head?).map CVal.one) ∧
      (Database.fetch_all db store now sql params true).1 =
        Except.ok (CVal.many (store sql params)) ∧
      ((Database.fetch_one db store now sql params true).2).trace =
        db.trace ++ [(sql, params)] ∧
      ((Database.fetch_all db store now sql params true).2).trace =
        db.trace ++ [(sql, params)] ∧
      (store sql params = [] →
        ((Database.fetch_one db store now sql params true).2).cache =
          (db.cache.get now (cacheKey sql params)).2 ∧
        ((Database.fetch_all db store now sql params true).2).cache =
          (db.cache.get now (cacheKey sql params)).2) ∧
      (∀ r rs, store sql params = r :: rs →
        lookupKey (cacheKey sql params)
            (((Database.fetch_one db store now sql params true).2).cache.entries) =
          some (CVal.one r, now) ∧
        lookupKey (cacheKey sql params)
            (((Database.fetch_all db store now sql params true).2).cache.entries) =
          some (CVal.many (r :: rs), now))) := by
  constructor
  · intro cv hcv ok
    have htr : cv.truthy = true := by
      obtain ⟨ts, hl, _⟩ := get_some_lookup hcv
      exact hwf (cacheKey sql params, cv, ts) (lookupKey_mem hl)
    exact ⟨fetch_one_hit db store now sql params ok cv hcv htr,
           fetch_all_hit db store now sql params ok cv hcv htr⟩
  · intro hmiss
    have hmiss2 : cvalOptTruthy ((db.cache.get now (cacheKey sql params)).1) = false := by
      rw [hmiss]
      rfl
    have hlen2 : ((db.cache.get now (cacheKey sql params)).2).entries.length ≤
        ((db.cache.get now (cacheKey sql params)).2).max_size := by
      rw [(get_max_size_eq db.cache now (cacheKey sql params)).1]
      exact le_trans (get_entries_length_le db.cache now (cacheKey sql params)) hlen
    have hpos2 : 0 < ((db.cache.get now (cacheKey sql params)).2).max_size := by
      rw [(get_max_size_eq db.cache now (cacheKey sql params)).1]
      exact hpos
    cases hstore : store sql params with
    | nil =>
      rw [fetch_one_miss_empty db store now sql params hmiss2 hstore,
          fetch_all_to_miss db store now sql params true hmiss2,
          fetch_all_miss_empty db store now sql params _ hstore]
      refine ⟨rfl, rfl, rfl, rfl, fun _ => ⟨rfl, rfl⟩, ?_⟩
      intro r rs habs
      simp at habs
    | cons r rs =>
      rw [hstore] at hrows
      have hr : r ≠ [] := hrows r (List.mem_cons_self r rs)
      obtain ⟨rh, rt, rfl⟩ : ∃ rh rt, r = rh :: rt := by
        cases r with
        | nil => exact absurd rfl hr
        | cons a b => exact ⟨a, b, rfl⟩
      have hsetok1 := set_ok_of_le ((db.cache.get now (cacheKey sql params)).2) now
        (cacheKey sql params) (CVal.one (rh :: rt)) hlen2 hpos2
      have hsetokM := set_ok_of_le ((db.cache.get now (cacheKey sql params)).2) now
        (cacheKey sql params) (CVal.many ((rh :: rt) :: rs)) hlen2 hpos2
      rw [fetch_one_miss_cons db store now sql params rh rt rs hmiss2 hstore hsetok1,
          fetch_all_to_miss db store now sql params true hmiss2,
          fetch_all_miss_cons db store now sql params (rh :: rt) rs _ hstore hsetokM]
      refine ⟨rfl, rfl, rfl, rfl, ?_, ?_⟩
      · intro habs
        simp at habs
      · intro r2 rs2 heq
        injection heq with h1 h2
        subst h1
        subst h2
        exact ⟨lookup_after_set _ now _ _ hsetok1, lookup_after_set _ now _ _ hsetokM⟩

/-- C8 witness: a cache hit is returned with pool and trace untouched
even when execution would fail, and a miss on an empty cache returns the
first row the store produces. -/
theorem C8_read_cache_policy_witness :
    Database.fetch_one c8dbHit c8store 0 "q" [] false =
      (Except.ok (some (CVal.many [[("a", Val.vint 2)]])),
       { c8dbHit with cache := (c8dbHit.cache.get 0 (cacheKey "q" [])).2 }) ∧
    (Database.fetch_one c8db c8store 0 "SELECT * FROM users" [] true).1 =
      Except.ok (((c8store "SELECT * FROM users" []).head?).map CVal.one) :=
  ⟨((C8_read_cache_policy c8dbHit c8store 0 "q" [] (by decide) (by decide) (by decide)
      (by decide)).1 (CVal.many [[("a", Val.vint 2)]]) (by decide) false).1,
   ((C8_read_cache_policy c8db c8store 0 "SELECT * FROM users" [] (by decide) (by decide)
      (by decide) (by decide)).2 (by decide)).1⟩

/-- C9: `delete` returns `False` with the whole database state untouched
exactly when the instance has no `id` attribute (a pure `hasattr` test);
with an `id` attribute present and a successful execution it issues the
parametrized `DELETE FROM <table> WHERE id = ?` with the id bound —
removing the matching row at the store — clears the entire cache, and
returns `True`. -/
theorem C9_delete_requires_id (db : Database) (m : Model) :
    (lookupAttr "id" m.attrs = none →
      ∀ ok, Model.delete db m ok = (Except.ok false, db)) ∧
    (∀ idv, lookupAttr "id" m.attrs = some idv →
      (Model.delete db m true).1 = Except.ok true ∧
      ((Model.delete db m true).2).cache.entries = [] ∧
      ((Model.delete db m true).2).trace =
        db.trace ++ [("DELETE FROM " ++ m.tablename ++ " WHERE id = ?", [idv])] ∧
      ((Model.delete db m true).2).pool =
        ((db.pool.get_connection).2).return_connection (db.pool.get_connection).1) := by
  constructor
  · intro h ok
    unfold Model.delete
    rw [h]
  · intro idv h
    unfold Model.delete
    rw [h]
    exact ⟨rfl, rfl, rfl, rfl⟩

/-- C9 witness: an instance without `id` is refused with the state
unchanged; one with `id = 7` deletes, clears the cache and succeeds. -/
theorem C9_delete_requires_id_witness :
    Model.delete c8db c9model true = (Except.ok false, c8db) ∧
    (Model.delete c8db c6model7 true).1 = Except.ok true ∧
    ((Model.delete c8db c6model7 true).2).cache.entries = [] ∧
    ((Model.delete c8db c6model7 true).2).trace =
      [("DELETE FROM users WHERE id = ?", [Val.vint 7])] :=
  ⟨(C9_delete_requires_id c8db c9model).1 (by decide) true,
   ((C9_delete_requires_id c8db c6model7).2 (Val.vint 7) (by decide)).1,
   ((C9_delete_requires_id c8db c6model7).2 (Val.vint 7) (by decide)).2.1,
   ((C9_delete_requires_id c8db c6model7).2 (Val.vint 7) (by decide)).2.2.1⟩

/-- C10: the `try/finally` in `execute`, `fetch_one` and `fetch_all`
releases the acquired connection on every path: the pool after a failing
statement equals the pool after a successful one — both are exactly an
acquire followed by a release — and the failure surfaces as an error, so
no checked-out connection is ever leaked. -/
theorem C10_no_connection_leak (db : Database) (store : String → List Val → List Row)
    (now : Nat) (sql : String) (params : List Val) :
    ((Database.execute db sql params false).2).pool =
      ((Database.execute db sql params true).2).pool ∧
    ((Database.execute db sql params false).2).pool =
      ((db.pool.get_connection).2).return_connection (db.pool.get_connection).1 ∧
    (Database.execute db sql params false).1 = Except.error () ∧
    (cvalOptTruthy ((db.cache.get now (cacheKey sql params)).1) = false →
      ((Database.fetch_one db store now sql params false).2).pool =
        ((Database.fetch_one db store now sql params true).2).pool ∧
      ((Database.fetch_one db store now sql params false).2).pool =
        ((db.pool.get_connection).2).return_connection (db.pool.get_connection).1 ∧
      (Database.fetch_one db store now sql params false).1 = Except.error () ∧
      ((Database.fetch_all db store now sql params false).2).pool =
        ((Database.fetch_all db store now sql params true).2).pool ∧
      ((Database.fetch_all db store now sql params false).2).pool =
        ((db.pool.get_connection).2).return_connection (db.pool.get_connection).1 ∧
      (Database.fetch_all db store now sql params false).1 = Except.error ()) := by
  refine ⟨rfl, rfl, rfl, ?_⟩
  intro h
  have hp1 := fetch_one_miss_pool db store now sql params false h
  have hp1t := fetch_one_miss_pool db store now sql params true h
  have hpAf := fetch_all_to_miss db store now sql params false h
  have hpAt := fetch_all_to_miss db store now sql params true h
  refine ⟨hp1.trans hp1t.symm, hp1, ?_, ?_, ?_, ?_⟩
  · rw [fetch_one_miss_err db store now sql params h]
  · rw [hpAf, hpAt]
    rw [fetch_all_miss_pool db store now sql params false
      ((db.cache.get now (cacheKey sql params)).2)]
    rw [fetch_all_miss_pool db store now sql params true
      ((db.cache.get now (cacheKey sql params)).2)]
  · rw [hpAf]
    rw [fetch_all_miss_pool db store now sql params false
      ((db.cache.get now (cacheKey sql params)).2)]
  · rw [hpAf, fetch_all_miss_false db store now sql params
      ((db.cache.get now (cacheKey sql params)).2)]

/-- C10 witness: on a concrete database, the pool after a failing
`execute` equals the pool after a successful one, and a failing
`fetch_one` reports an error (its connection released). -/
theorem C10_no_connection_leak_witness :
    ((Database.execute c8db "X" [] false).2).pool =
      ((Database.execute c8db "X" [] true).2).pool ∧
    (Database.fetch_one c8db c8store 0 "X" [] false).1 = Except.error () :=
  ⟨(C10_no_connection_leak c8db c8store 0 "X" []).1,
   ((C10_no_connection_leak c8db c8store 0 "X" []).2.2.2 (by decide)).2.2.1⟩
